import Mathlib

/-!
Verification of the yeoman-helpers repository.

The repository provides a Generator base class (src/lib/generator.js, with an
older near-duplicate at the end of src/unnamed/part_001) and an OptionPrompt
helper class (start of src/unnamed/part_001), plus a static prompt-type map
(end of src/unnamed/part_000).

The embedding below models JSON documents as an inductive tree whose objects
are association lists that preserve insertion order, mirroring JavaScript
object key ordering. The host framework file system maps each path to the
JSON document written there (together with the indentation string that was
passed to writeJSON), or to none for a missing file. Lodash mergeWith, Object.assign and the relevant pieces
of the inquirer prompt protocol are translated directly from their documented
observable behavior on the value shapes this code exercises.
-/

set_option autoImplicit false

namespace YeomanHelpers

/-- A JSON value. Objects are association lists in insertion order, as in a
JavaScript object; numbers are restricted to integers, which covers every
value this repository manipulates. -/
inductive Json where
  | null
  | bool (b : Bool)
  | num (n : Int)
  | str (s : String)
  | arr (items : List Json)
  | obj (fields : List (String × Json))
deriving Repr, Inhabited

/-- Property read on a JavaScript object: the value of the first field with
the given key, or none when the key is absent (JS objects have unique keys,
so first-match equals only-match there). -/
def lookupField : List (String × Json) → String → Option Json
  | [], _ => none
  | (k, v) :: rest, n => if k = n then some v else lookupField rest n

/-- Property assignment on a JavaScript object: an existing key keeps its
position and gets the new value; a new key is appended at the end. -/
def setField : List (String × Json) → String → Json → List (String × Json)
  | [], n, v => [(n, v)]
  | (k, w) :: rest, n, v =>
    if k = n then (k, v) :: rest else (k, w) :: setField rest n v

/-- The delete operator on a JavaScript object: removes the field with the
given key (JS objects have unique keys, so removing every match agrees). -/
def removeField : List (String × Json) → String → List (String × Json)
  | [], _ => []
  | (k, v) :: rest, n =>
    if k = n then removeField rest n else (k, v) :: removeField rest n

/-- A lodash mergeWith customizer: receives the existing value at a key
(none when the key is absent, i.e. undefined) and the incoming value, and
returns some combined value, or none (undefined) to defer to the default
recursive merge. -/
def Customizer : Type := Option Json → Json → Option Json

/-- concatArrays from src/lib/generator.js lines 235 to 237: when both the
existing and the incoming value are arrays, return their concatenation,
existing first; otherwise return undefined to defer. -/
def concatArrays : Customizer := fun objValue srcValue =>
  match objValue, srcValue with
  | some (Json.arr o), Json.arr s => some (Json.arr (o ++ s))
  | _, _ => none

/-- appendScripts from src/lib/generator.js lines 247 to 249: when both
values are strings, join them as existing, separator, incoming. -/
def appendScripts : Customizer := fun objValue srcValue =>
  match objValue, srcValue with
  | some (Json.str o), Json.str s => some (Json.str (o ++ " && " ++ s))
  | _, _ => none

/-- prependScripts from src/lib/generator.js lines 259 to 261: when both
values are strings, join them as incoming, separator, existing. -/
def prependScripts : Customizer := fun objValue srcValue =>
  match objValue, srcValue with
  | some (Json.str o), Json.str s => some (Json.str (s ++ " && " ++ o))
  | _, _ => none

mutual

/-- Lodash mergeWith at one key: first consult the customizer; when it
defers, merge object with object key-by-key and array with array index-wise
(the lodash default), and otherwise assign the incoming value. -/
def mergeValue (c : Customizer) (objValue : Option Json) (srcValue : Json) :
    Json :=
  match c objValue srcValue with
  | some r => r
  | none =>
    match objValue, srcValue with
    | some (Json.obj o), Json.obj s => Json.obj (mergeFields c o s)
    | some (Json.arr o), Json.arr s => Json.arr (mergeItems c o s)
    | _, _ => srcValue

/-- Lodash mergeWith over the fields of a source object: each source field is
merged into the destination in source order. -/
def mergeFields (c : Customizer) (o : List (String × Json)) :
    List (String × Json) → List (String × Json)
  | [] => o
  | (k, v) :: rest =>
    mergeFields c (setField o k (mergeValue c (lookupField o k) v)) rest

/-- Lodash mergeWith over array elements: positions present in both arrays
are merged recursively, and the longer array contributes its tail. -/
def mergeItems (c : Customizer) (o : List Json) (s : List Json) : List Json :=
  match o, s with
  | o, [] => o
  | [], v :: rest => mergeValue c none v :: mergeItems c [] rest
  | u :: o, v :: rest => mergeValue c (some u) v :: mergeItems c o rest

end

/-- Lodash mergeWith(object, source, customizer) as used by extendJson: both
the destination and the source are JSON objects there, and the source fields
are merged into the destination. A non-object source leaves the destination
unchanged, which is all this repository ever passes. -/
def mergeWith (c : Customizer) (dst src : Json) : Json :=
  match dst, src with
  | Json.obj o, Json.obj s => Json.obj (mergeFields c o s)
  | _, _ => dst

/-- A JSON document as stored by the framework file system: the value written
and the indentation argument that was passed to writeJSON. -/
structure JsonFile where
  value : Json
  space : String
deriving Repr

/-- The destination file system: a map from destination paths to written
JSON documents, none for a missing file. Path resolution through
destinationPath is modelled as the identity on the relative path. -/
def FS : Type := String → Option JsonFile

/-- this.fs.readJSON(path, default): the stored value, or the default when
the file is missing. -/
def readJSON (fs : FS) (p : String) (d : Json) : Json :=
  match fs p with
  | some f => f.value
  | none => d

/-- this.fs.writeJSON(path, value, null, space): store the value at the path
together with the indentation used. -/
def writeJSON (fs : FS) (p : String) (v : Json) (space : String) : FS :=
  fun q => if q = p then some ⟨v, space⟩ else fs q

/-- Generator#extendJson from src/lib/generator.js lines 155 to 160: read
the file (a missing file reads as the empty object), merge the contents into
it with the customizer, and write the result back tab-indented. -/
def extendJson (fs : FS) (destinationPath : String) (contents : Json)
    (customizer : Customizer) : FS :=
  let obj := readJSON fs destinationPath (Json.obj [])
  writeJSON fs destinationPath (mergeWith customizer obj contents) "\t"

/-- Generator#extendPackage: extendJson specialized to package.json. -/
def extendPackage (fs : FS) (contents : Json) (customizer : Customizer) :
    FS :=
  extendJson fs "package.json" contents customizer

/-- Generator#extendTsConfig: extendJson specialized to tsconfig.json. -/
def extendTsConfig (fs : FS) (contents : Json) (customizer : Customizer) :
    FS :=
  extendJson fs "tsconfig.json" contents customizer

/-- Generator#addScripts from src/lib/generator.js lines 195 to 200: merge
the scripts object into package.json, appending to a colliding script by
default and prepending when prepend is true. -/
def addScripts (fs : FS) (scripts : List (String × Json))
    (prepend : Bool := false) : FS :=
  extendPackage fs (Json.obj [("scripts", Json.obj scripts)])
    (if prepend then prependScripts else appendScripts)

/-- addScripts of the older Generator copy at src/unnamed/part_001 lines 210
to 215: identical except that the customizer selection reads
appendScripts when prepend is true and prependScripts otherwise. -/
def addScriptsLegacy (fs : FS) (scripts : List (String × Json))
    (prepend : Bool := false) : FS :=
  extendPackage fs (Json.obj [("scripts", Json.obj scripts)])
    (if prepend then appendScripts else prependScripts)

/-- Object.assign(dst, src) for two JSON objects: copy each source field
onto the destination in order, mutating dst. -/
def assignFields (dst : List (String × Json)) :
    List (String × Json) → List (String × Json)
  | [] => dst
  | (k, v) :: rest => assignFields (setField dst k v) rest

/-- The loop of Generator#sortScripts: for each requested name in order, move
the script with that name (when present) from the scripts object onto the
end of the sorted object. Returns the sorted object and what remains of the
scripts object. -/
def sortLoop (names : List String) (sorted scripts : List (String × Json)) :
    List (String × Json) × List (String × Json) :=
  match names with
  | [] => (sorted, scripts)
  | n :: rest =>
    match lookupField scripts n with
    | some v => sortLoop rest (setField sorted n v) (removeField scripts n)
    | none => sortLoop rest sorted scripts

/-- Generator#sortScripts from src/lib/generator.js lines 211 to 224: read
package.json (missing reads as the empty object), destructure its scripts
property, move each requested name from it onto a fresh sorted object, put
the sorted fields followed by the remaining fields back as the scripts
property, and write the file tab-indented. The result is none when the run
throws: with a non-empty name list, the membership test applies the
JavaScript in operator to the scripts value, which throws a TypeError when
that value is undefined or a primitive (a scripts section is never an
array, so array values are also mapped to the throwing case here). With an
empty name list and no scripts property, Object.assign ignores the undefined
source and an empty scripts object is written. The body runs after the
manifest has been read and destructured into its fields. -/
def sortScriptsBody (fs : FS) (pkgFields : List (String × Json))
    (names : List String) : Option FS :=
  match lookupField pkgFields "scripts", names with
  | some (Json.obj sf), _ =>
    let r := sortLoop names [] sf
    some (writeJSON fs "package.json"
      (Json.obj (setField pkgFields "scripts"
        (Json.obj (assignFields r.1 r.2)))) "\t")
  | none, [] =>
    some (writeJSON fs "package.json"
      (Json.obj (setField pkgFields "scripts" (Json.obj []))) "\t")
  | _, _ => none

/-- Generator#sortScripts entry point: read package.json (missing reads as
the empty object) and run the sorting body over its fields; a non-object
manifest (null, say) makes the destructuring throw. -/
def sortScripts (fs : FS) (names : List String) : Option FS :=
  match readJSON fs "package.json" (Json.obj []) with
  | Json.obj pkgFields => sortScriptsBody fs pkgFields names
  | _ => none

/-- JavaScript truthiness of a JSON value: null (and undefined, which this
embedding folds into null when it occurs as a value), false, zero and the
empty string are falsy; arrays and objects are always truthy. -/
def jsFalsy : Json → Bool
  | Json.null => true
  | Json.bool b => !b
  | Json.num n => n == 0
  | Json.str s => s == ""
  | Json.arr _ => false
  | Json.obj _ => false

mutual

/-- JavaScript string coercion of a JSON value, as performed by a template
literal: arrays join their elements with commas (null elements becoming the
empty string) and objects print as object Object in brackets. -/
def jsToStr : Json → String
  | Json.null => "null"
  | Json.bool true => "true"
  | Json.bool false => "false"
  | Json.num n => toString n
  | Json.str s => s
  | Json.arr items => jsItemsToStr items
  | Json.obj _ => "[object Object]"

/-- String coercion of array elements, comma separated. -/
def jsItemsToStr : List Json → String
  | [] => ""
  | x :: rest =>
    (match x with
      | Json.null => ""
      | _ => jsToStr x) ++
    (match rest with
      | [] => ""
      | _ => "," ++ jsItemsToStr rest)

end

/-- String coercion of a possibly undefined value (undefined prints as the
word undefined in a template literal). -/
def jsInputToStr : Option Json → String
  | none => "undefined"
  | some v => jsToStr v

/-- The options bag owned by the host framework: option name to value, none
for an option that is undefined there. The option-prompt code only ever
distinguishes values by strict comparison with undefined, so an absent key
and a key holding undefined are observationally the same and both map to
none. -/
def Bag : Type := String → Option Json

/-- Property assignment on the options bag. -/
def bagSet (opts : Bag) (k : String) (v : Option Json) : Bag :=
  fun q => if q = k then v else opts q

/-- An option-prompt descriptor, as passed to Generator#optionPrompt. The
fields kept are the ones the resolution and validation semantics read; the
purely presentational fields (alias, description, message and the prompt
default, which only shape the interactive UI) are omitted because the
embedding abstracts the interactive prompt as the answer it produced. The
validator receives the option value (none for undefined) and returns an
arbitrary JavaScript value; the allowed predicate receives the options
bag. -/
structure Config where
  name : String
  type : String
  validate : Option (Option Json → Json)
  allowed : Option (Bag → Bool)
  whenProhibited : Option Json

/-- The values the prompt-type lookup can produce: the Boolean and String
constructors stored in the map as own properties, or the truthy value
inherited from Object.prototype when the prompt type names one of its
members (the map is a plain object literal, so property reads fall back to
the prototype chain). -/
inductive OptionType where
  | Boolean
  | String
  | inherited (name : String)
deriving Repr, DecidableEq

/-- The member names of Object.prototype in Node: a property read of any of
these on a plain object literal finds an inherited function (or, for the
proto accessor, the prototype object itself), and each of those values is
truthy. -/
def objectPrototypeKeys : List String :=
  ["constructor", "hasOwnProperty", "isPrototypeOf", "propertyIsEnumerable",
   "toLocaleString", "toString", "valueOf", "__defineGetter__",
   "__defineSetter__", "__lookupGetter__", "__lookupSetter__", "__proto__"]

/-- The prompt-type map of src/unnamed/part_000 lines 30 to 33, read with
JavaScript property-lookup semantics: confirm and input are own keys
holding the Boolean and String constructors; any other name is looked up
along the prototype chain, which finds a truthy inherited value when the
name is a member of Object.prototype and undefined otherwise. -/
def typeMap (t : String) : Option OptionType :=
  if t = "confirm" then some OptionType.Boolean
  else if t = "input" then some OptionType.String
  else if t ∈ objectPrototypeKeys then some (OptionType.inherited t)
  else none

/-- OptionPrompt#optionType from src/unnamed/part_001 lines 42 to 47: read
the prompt type off the map and throw an unsupported-prompt-type error when
the read comes back undefined (a falsy value); any truthy lookup result,
including one inherited from Object.prototype, is returned as is. -/
def optionType (cfg : Config) : Except String OptionType :=
  match typeMap cfg.type with
  | some ot => Except.ok ot
  | none =>
    Except.error ("Unsupported prompt type \x27" ++ cfg.type ++ "\x27")

/-- OptionPrompt#isAllowed from src/unnamed/part_001 lines 23 to 26: true
when no allowed predicate is configured, and otherwise the predicate applied
to the current options bag. -/
def isAllowed (cfg : Config) (opts : Bag) : Bool :=
  match cfg.allowed with
  | none => true
  | some f => f opts

/-- OptionPrompt#isMissing from src/unnamed/part_001 lines 32 to 34: whether
the option is strictly equal to undefined in the options bag. The question
built by OptionPrompt#question uses the same comparison as its when
condition, so inquirer shows the question exactly when this holds. -/
def isMissing (cfg : Config) (opts : Bag) : Bool :=
  match opts cfg.name with
  | none => true
  | some _ => false

/-- The answers object produced by generator.prompt for the single question:
when the question fired (its when condition held, i.e. the option was
undefined) the answers hold the produced answer u under the option name,
and otherwise the answers are empty. -/
def promptAnswers (u : Json) (cfg : Config) (opts : Bag) : Option Json :=
  if isMissing cfg opts then some u else none

/-- assign(options, answers) for the single-question answers object. -/
def assignAnswer (opts : Bag) (name : String) : Option Json → Bag
  | none => opts
  | some v => bagSet opts name (some v)

/-- OptionPrompt#prompt from src/unnamed/part_001 lines 78 to 86: when the
option is allowed, merge the prompt answers into the options bag (the
question itself fires only when the option is undefined); when it is not
allowed, assign the whenProhibited value onto the options bag directly,
showing no prompt. The parameter u is the answer the interactive prompt
would produce if it fired. -/
def promptStep (u : Json) (cfg : Config) (opts : Bag) : Bag :=
  match isAllowed cfg opts with
  | true => assignAnswer opts cfg.name (promptAnswers u cfg opts)
  | false => bagSet opts cfg.name cfg.whenProhibited

/-- The generic validation failure message, built from the option name and
the string coercion of the offending value. -/
def invalidMessage (name : String) (input : Option Json) : String :=
  "Invalid " ++ name ++ " option \x27" ++ jsInputToStr input ++ "\x27"

/-- OptionPrompt#validate from src/unnamed/part_001 lines 93 to 102: when a
validator is configured, apply it to the option value; replace a falsy
result by the generic message; when the (possibly replaced) result is a
string, report it through env.error, which terminates the run with that
message. Returns the terminating message, or none when the run continues. -/
def validateStep (cfg : Config) (opts : Bag) : Option String :=
  match cfg.validate with
  | none => none
  | some v =>
    let input := opts cfg.name
    let result := v input
    let result2 :=
      if jsFalsy result then Json.str (invalidMessage cfg.name input)
      else result
    match result2 with
    | Json.str s => some s
    | _ => none

/-- OptionPrompt#resolve from src/unnamed/part_001 lines 107 to 110: prompt,
then validate; a validation message aborts the run with that message, and
otherwise the run continues with the updated options bag. -/
def resolve (u : Json) (cfg : Config) (opts : Bag) : Except String Bag :=
  let opts2 := promptStep u cfg opts
  match validateStep cfg opts2 with
  | some msg => Except.error msg
  | none => Except.ok opts2

/-- A single-file destination file system, used for concrete runs. -/
def fileFS (p : String) (v : Json) : FS :=
  fun q => if q = p then some (JsonFile.mk v "\t") else none

theorem lookupField_setField_self (l : List (String × Json)) (k : String)
    (v : Json) : lookupField (setField l k v) k = some v := by
  induction l with
  | nil => simp [setField, lookupField]
  | cons kv rest ih =>
    obtain ⟨k2, w⟩ := kv
    by_cases h : k2 = k <;> simp [setField, lookupField, h, ih]

theorem lookupField_setField_ne (l : List (String × Json)) (k : String)
    (v : Json) (k2 : String) (h : k ≠ k2) :
    lookupField (setField l k v) k2 = lookupField l k2 := by
  induction l with
  | nil => simp [setField, lookupField, h]
  | cons kv rest ih =>
    obtain ⟨k3, w⟩ := kv
    by_cases h3 : k3 = k
    · subst h3
      simp [setField, lookupField, h]
    · simp [setField, lookupField, h3, ih]

theorem setField_eq_append (l : List (String × Json)) (k : String) (v : Json)
    (h : lookupField l k = none) : setField l k v = l ++ [(k, v)] := by
  induction l with
  | nil => simp [setField]
  | cons kv rest ih =>
    obtain ⟨k2, w⟩ := kv
    by_cases h2 : k2 = k
    · simp [lookupField, h2] at h
    · simp only [lookupField, if_neg h2] at h
      simp [setField, h2, ih h]

theorem lookupField_eq_none_iff (l : List (String × Json)) (k : String) :
    lookupField l k = none ↔ ∀ kv ∈ l, kv.1 ≠ k := by
  induction l with
  | nil => simp [lookupField]
  | cons kv rest ih =>
    obtain ⟨k2, w⟩ := kv
    by_cases h2 : k2 = k <;> simp [lookupField, h2, ih]

theorem lookupField_append (a b : List (String × Json)) (k : String)
    (h : lookupField a k = none) :
    lookupField (a ++ b) k = lookupField b k := by
  induction a with
  | nil => simp
  | cons kv rest ih =>
    obtain ⟨k2, w⟩ := kv
    by_cases h2 : k2 = k
    · simp [lookupField, h2] at h
    · simp only [lookupField, if_neg h2] at h
      simp [lookupField, h2, ih h]

theorem lookupField_removeField_ne (l : List (String × Json)) (n m : String)
    (h : m ≠ n) : lookupField (removeField l n) m = lookupField l m := by
  induction l with
  | nil => simp [removeField]
  | cons kv rest ih =>
    obtain ⟨k2, w⟩ := kv
    by_cases h2 : k2 = n
    · subst h2
      have hne : ¬k2 = m := fun hh => h (hh.symm)
      simp [removeField, lookupField, ih, hne]
    · by_cases h3 : k2 = m
      · subst h3
        simp [removeField, lookupField, h2, fun hh : k2 = n => h2 hh]
      · simp [removeField, lookupField, h2, h3, ih]

theorem removeField_eq_filter (l : List (String × Json)) (n : String) :
    removeField l n = l.filter fun kv => decide (kv.1 ≠ n) := by
  induction l with
  | nil => simp [removeField]
  | cons kv rest ih =>
    obtain ⟨k2, w⟩ := kv
    by_cases h2 : k2 = n <;> simp [removeField, h2, ih, List.filter]

/-- A scalar JSON value: anything that is neither an array nor an object. -/
def jsonIsScalar : Json → Bool
  | Json.arr _ => false
  | Json.obj _ => false
  | _ => true

theorem concatArrays_none_left (v : Json) : concatArrays none v = none := by
  cases v <;> rfl

theorem concatArrays_scalar (objValue : Option Json) (srcValue : Json)
    (h : jsonIsScalar srcValue = true) : concatArrays objValue srcValue = none := by
  rcases objValue with _ | w
  · cases srcValue <;> rfl
  · cases w <;> cases srcValue <;> first | rfl | simp [jsonIsScalar] at h

theorem mergeValue_none_of_customizer_none (c : Customizer) (v : Json)
    (h : c none v = none) : mergeValue c none v = v := by
  cases v <;> simp [mergeValue, h]

theorem mergeValue_scalar (c : Customizer) (objValue : Option Json)
    (srcValue : Json) (hc : c objValue srcValue = none)
    (hs : jsonIsScalar srcValue = true) :
    mergeValue c objValue srcValue = srcValue := by
  rcases objValue with _ | w
  · exact mergeValue_none_of_customizer_none c srcValue hc
  · cases srcValue with
    | arr items => simp [jsonIsScalar] at hs
    | obj fields => simp [jsonIsScalar] at hs
    | null => cases w <;> simp [mergeValue, hc]
    | bool b => cases w <;> simp [mergeValue, hc]
    | num n => cases w <;> simp [mergeValue, hc]
    | str s => cases w <;> simp [mergeValue, hc]

/-- The key-by-key reading of lodash mergeWith on two objects: a key present
in the source maps to the merge of the two values at that key, and a key
absent from the source keeps the destination value. -/
theorem lookupField_mergeFields (c : Customizer) (s : List (String × Json)) :
    ∀ (o : List (String × Json)) (k : String), (s.map Prod.fst).Nodup →
    lookupField (mergeFields c o s) k =
      match lookupField s k with
      | some v => some (mergeValue c (lookupField o k) v)
      | none => lookupField o k := by
  induction s with
  | nil => intro o k _; simp [mergeFields, lookupField]
  | cons hd rest ih =>
    intro o k hnd
    obtain ⟨k0, v0⟩ := hd
    rw [List.map_cons, List.nodup_cons] at hnd
    obtain ⟨hk0, hndr⟩ := hnd
    rw [show mergeFields c o ((k0, v0) :: rest) =
        mergeFields c (setField o k0 (mergeValue c (lookupField o k0) v0))
          rest from rfl]
    rw [ih _ k hndr]
    by_cases hk : k0 = k
    · subst hk
      have hrest : lookupField rest k0 = none := by
        refine (lookupField_eq_none_iff rest k0).mpr fun kv hkv hh => hk0 ?_
        have hmem : kv.1 ∈ List.map Prod.fst rest :=
          List.mem_map_of_mem Prod.fst hkv
        exact hh ▸ hmem
      simp [lookupField, hrest, lookupField_setField_self]
    · rw [lookupField_setField_ne o k0 _ k hk]
      simp [lookupField, hk]

/-- Merging a source object whose keys are all fresh for the destination
appends the source fields unchanged (for the concatArrays customizer, whose
deferral on a missing existing value keeps the incoming value as is). -/
theorem mergeFields_disjoint (s : List (String × Json)) :
    ∀ o : List (String × Json), (s.map Prod.fst).Nodup →
    (∀ kv ∈ s, lookupField o kv.1 = none) →
    mergeFields concatArrays o s = o ++ s := by
  induction s with
  | nil => intro o _ _; simp [mergeFields]
  | cons hd rest ih =>
    intro o hnd hfresh
    obtain ⟨k0, v0⟩ := hd
    rw [List.map_cons, List.nodup_cons] at hnd
    obtain ⟨hk0, hndr⟩ := hnd
    have ho : lookupField o k0 = none := hfresh (k0, v0) (by simp)
    rw [show mergeFields concatArrays o ((k0, v0) :: rest) =
        mergeFields concatArrays
          (setField o k0 (mergeValue concatArrays (lookupField o k0) v0))
          rest from rfl]
    rw [ho, mergeValue_none_of_customizer_none _ _ (concatArrays_none_left v0),
      setField_eq_append o k0 v0 ho]
    rw [ih (o ++ [(k0, v0)]) hndr ?_]
    · simp
    · intro kv hkv
      have hne : kv.1 ≠ k0 := by
        intro hh
        have hmem : kv.1 ∈ List.map Prod.fst rest :=
          List.mem_map_of_mem Prod.fst hkv
        exact hk0 (hh ▸ hmem)
      have hne2 : ¬k0 = kv.1 := fun hh => hne hh.symm
      rw [lookupField_append _ _ _ (hfresh kv (by simp [hkv]))]
      simp [lookupField, hne2]

theorem assignFields_eq_append (src : List (String × Json)) :
    ∀ dst : List (String × Json), (src.map Prod.fst).Nodup →
    (∀ kv ∈ src, lookupField dst kv.1 = none) →
    assignFields dst src = dst ++ src := by
  induction src with
  | nil => intro dst _ _; simp [assignFields]
  | cons hd rest ih =>
    intro dst hnd hfresh
    obtain ⟨k0, v0⟩ := hd
    rw [List.map_cons, List.nodup_cons] at hnd
    obtain ⟨hk0, hndr⟩ := hnd
    have ho : lookupField dst k0 = none := hfresh (k0, v0) (by simp)
    rw [show assignFields dst ((k0, v0) :: rest) =
        assignFields (setField dst k0 v0) rest from rfl]
    rw [setField_eq_append dst k0 v0 ho]
    rw [ih (dst ++ [(k0, v0)]) hndr ?_]
    · simp
    · intro kv hkv
      have hne : kv.1 ≠ k0 := by
        intro hh
        have hmem : kv.1 ∈ List.map Prod.fst rest :=
          List.mem_map_of_mem Prod.fst hkv
        exact hk0 (hh ▸ hmem)
      have hne2 : ¬k0 = kv.1 := fun hh => hne hh.symm
      rw [lookupField_append _ _ _ (hfresh kv (by simp [hkv]))]
      simp [lookupField, hne2]

/-- The sortScripts loop, characterized: it appends to the sorted object, in
requested order, the entries of the scripts object whose names were
requested, and leaves in the scripts object the entries whose names were
not, in their original relative order. -/
theorem sortLoop_spec (names : List String) :
    ∀ sorted sf : List (String × Json), names.Nodup →
    (∀ n ∈ names, lookupField sorted n = none) →
    sortLoop names sorted sf =
      (sorted ++
        names.filterMap (fun n => (lookupField sf n).map fun v => (n, v)),
       sf.filter fun kv => decide (kv.1 ∉ names)) := by
  induction names with
  | nil =>
    intro sorted sf _ _
    simp [sortLoop]
  | cons n rest ih =>
    intro sorted sf hnd hfresh
    rw [List.nodup_cons] at hnd
    obtain ⟨hnr, hndr⟩ := hnd
    cases hl : lookupField sf n with
    | some v =>
      rw [show sortLoop (n :: rest) sorted sf =
          (match lookupField sf n with
           | some v => sortLoop rest (setField sorted n v) (removeField sf n)
           | none => sortLoop rest sorted sf) from rfl, hl]
      show sortLoop rest (setField sorted n v) (removeField sf n) = _
      rw [setField_eq_append sorted n v (hfresh n (by simp))]
      rw [ih (sorted ++ [(n, v)]) (removeField sf n) hndr ?_]
      · have hfm : rest.filterMap
            (fun m => (lookupField (removeField sf n) m).map fun v => (m, v)) =
            rest.filterMap
              (fun m => (lookupField sf m).map fun v => (m, v)) := by
          refine List.filterMap_congr fun m hm => ?_
          rw [lookupField_removeField_ne sf n m (fun hh => hnr (hh ▸ hm))]
        have hfl : (removeField sf n).filter
            (fun kv => decide (kv.1 ∉ rest)) =
            sf.filter fun kv => decide (kv.1 ∉ n :: rest) := by
          rw [removeField_eq_filter, List.filter_filter]
          refine List.filter_congr fun kv _ => ?_
          simp [List.mem_cons, not_or, Bool.and_comm]
        rw [hfm, hfl]
        simp [List.filterMap_cons, hl]
      · intro m hm
        have hmn : ¬n = m := fun hh => hnr (hh ▸ hm)
        rw [lookupField_append _ _ _ (hfresh m (by simp [hm]))]
        simp [lookupField, hmn]
    | none =>
      rw [show sortLoop (n :: rest) sorted sf =
          (match lookupField sf n with
           | some v => sortLoop rest (setField sorted n v) (removeField sf n)
           | none => sortLoop rest sorted sf) from rfl, hl]
      show sortLoop rest sorted sf = _
      rw [ih sorted sf hndr (fun m hm => hfresh m (by simp [hm]))]
      have hke : ∀ kv ∈ sf, kv.1 ≠ n :=
        (lookupField_eq_none_iff sf n).mp hl
      have hfl : sf.filter (fun kv => decide (kv.1 ∉ rest)) =
          sf.filter fun kv => decide (kv.1 ∉ n :: rest) := by
        refine List.filter_congr fun kv hkv => ?_
        simp [List.mem_cons, hke kv hkv]
      rw [hfl]
      simp [List.filterMap_cons, hl]

theorem bagSet_self (opts : Bag) (k : String) (v : Option Json) :
    bagSet opts k v k = v := by
  simp [bagSet]

theorem promptStep_of_not_allowed (u : Json) (cfg : Config) (opts : Bag)
    (f : Bag → Bool) (hA : cfg.allowed = some f) (hf : f opts = false) :
    promptStep u cfg opts = bagSet opts cfg.name cfg.whenProhibited := by
  have h : isAllowed cfg opts = false := by simp [isAllowed, hA, hf]
  unfold promptStep
  rw [h]

theorem promptStep_of_allowed_present (u : Json) (cfg : Config) (opts : Bag)
    (v : Json) (hAl : isAllowed cfg opts = true)
    (hv : opts cfg.name = some v) : promptStep u cfg opts = opts := by
  unfold promptStep
  rw [hAl]
  simp [promptAnswers, isMissing, hv, assignAnswer]

/-- resolve, characterized for a configured validator: the options bag after
the prompt step is validated; a falsy validator result aborts with the
generic message over the final option value, a string result aborts with
that string, and any other result lets the run continue. -/
theorem resolve_eq_of_validate (u : Json) (cfg : Config) (opts : Bag)
    (v : Option Json → Json) (hv : cfg.validate = some v) :
    resolve u cfg opts =
      (if jsFalsy (v ((promptStep u cfg opts) cfg.name)) then
        Except.error
          (invalidMessage cfg.name ((promptStep u cfg opts) cfg.name))
      else
        match v ((promptStep u cfg opts) cfg.name) with
        | Json.str s => Except.error s
        | _ => Except.ok (promptStep u cfg opts)) := by
  unfold resolve validateStep
  rw [hv]
  cases hfal : jsFalsy (v ((promptStep u cfg opts) cfg.name)) with
  | true => simp [hfal]
  | false =>
    simp only [hfal, if_false, Bool.false_eq_true]
    cases hres : v ((promptStep u cfg opts) cfg.name) <;> simp [hres, hfal]

/-- Claim C7, counterexample: the prompt type toString is neither confirm
nor input, yet requesting the flag kind does not throw: the property read
finds the truthy toString function inherited from Object.prototype, the
falsy check passes it, and the getter returns it. -/
theorem optionType_inherited_cex :
    optionType (Config.mk "opt" "toString" none none none) =
      Except.ok (OptionType.inherited "toString") ∧
    optionType (Config.mk "opt" "toString" none none none) ≠
      Except.error "Unsupported prompt type \x27toString\x27" := by
  refine ⟨rfl, ?_⟩
  intro h
  have h1 : optionType (Config.mk "opt" "toString" none none none) =
      Except.ok (OptionType.inherited "toString") := rfl
  rw [h1] at h
  exact Except.noConfusion h

/-- Claim C7 as amended: requesting the CLI flag kind of a descriptor
yields the Boolean flag kind for the confirm prompt type and the String
flag kind for the input prompt type; a prompt type naming a member of
Object.prototype (toString, constructor, hasOwnProperty, valueOf and the
other inherited names) makes the property read find that truthy inherited
value, which the getter returns without throwing; every other prompt type
throws, immediately and synchronously, an error naming the unsupported
prompt type. -/
theorem optionType_flag_kinds (cfg : Config) :
    (cfg.type = "confirm" → optionType cfg = Except.ok OptionType.Boolean) ∧
    (cfg.type = "input" → optionType cfg = Except.ok OptionType.String) ∧
    (cfg.type ∈ objectPrototypeKeys →
      optionType cfg = Except.ok (OptionType.inherited cfg.type)) ∧
    (cfg.type ≠ "confirm" → cfg.type ≠ "input" →
      cfg.type ∉ objectPrototypeKeys →
      optionType cfg = Except.error
        ("Unsupported prompt type \x27" ++ cfg.type ++ "\x27")) := by
  refine ⟨?_, ?_, ?_, ?_⟩
  · intro h; simp [optionType, typeMap, h]
  · intro h; simp [optionType, typeMap, h]
  · intro h
    have h1 : cfg.type ≠ "confirm" := by
      intro hh; rw [hh] at h; exact absurd h (by decide)
    have h2 : cfg.type ≠ "input" := by
      intro hh; rw [hh] at h; exact absurd h (by decide)
    simp [optionType, typeMap, h, h1, h2]
  · intro h1 h2 h3; simp [optionType, typeMap, h1, h2, h3]

theorem optionType_flag_kinds_witness :
    optionType (Config.mk "opt" "confirm" none none none) =
      Except.ok OptionType.Boolean ∧
    optionType (Config.mk "opt" "input" none none none) =
      Except.ok OptionType.String ∧
    optionType (Config.mk "opt" "valueOf" none none none) =
      Except.ok (OptionType.inherited "valueOf") ∧
    optionType (Config.mk "opt" "editor" none none none) =
      Except.error "Unsupported prompt type \x27editor\x27" :=
  ⟨(optionType_flag_kinds (Config.mk "opt" "confirm" none none none)).1 rfl,
   (optionType_flag_kinds (Config.mk "opt" "input" none none none)).2.1 rfl,
   (optionType_flag_kinds (Config.mk "opt" "valueOf" none none none)).2.2.1
     (by decide),
   (optionType_flag_kinds (Config.mk "opt" "editor" none none none)).2.2.2
     (by decide) (by decide) (by decide)⟩

/-- Claim C3: when the allowed predicate of a descriptor returns false on
the current options bag, the prompt step assigns the whenProhibited value as
the option value, independently of the answer the interactive prompt would
have produced and of any value the CLI put in the options bag beforehand;
consequently a successful resolution ends with the whenProhibited value as
the final option value. -/
theorem prompt_prohibited_assigns_fallback (cfg : Config) (f : Bag → Bool)
    (opts : Bag) (hA : cfg.allowed = some f) (hf : f opts = false) :
    (∀ u : Json,
      promptStep u cfg opts = bagSet opts cfg.name cfg.whenProhibited) ∧
    (∀ (u : Json) (b : Bag), resolve u cfg opts = Except.ok b →
      b cfg.name = cfg.whenProhibited) := by
  have hps : ∀ u : Json,
      promptStep u cfg opts = bagSet opts cfg.name cfg.whenProhibited :=
    fun u => promptStep_of_not_allowed u cfg opts f hA hf
  refine ⟨hps, ?_⟩
  intro u b hres
  unfold resolve at hres
  have hres2 : (match validateStep cfg (promptStep u cfg opts) with
      | some msg => Except.error msg
      | none => Except.ok (promptStep u cfg opts)) = Except.ok b := hres
  cases hvs : validateStep cfg (promptStep u cfg opts) with
  | some msg => rw [hvs] at hres2; exact absurd hres2 (by simp)
  | none =>
    rw [hvs] at hres2
    have hb : promptStep u cfg opts = b := by
      simpa using hres2
    rw [← hb, hps u, bagSet_self]

def cfgProhibited : Config :=
  Config.mk "opt" "input" none (some fun _ => false)
    (some (Json.str "fallback"))

def optsProhibited : Bag :=
  fun k => if k = "opt" then some (Json.str "cli") else none

theorem prompt_prohibited_assigns_fallback_witness :
    promptStep (Json.str "answer") cfgProhibited optsProhibited =
      bagSet optsProhibited "opt" (some (Json.str "fallback")) :=
  (prompt_prohibited_assigns_fallback cfgProhibited (fun _ => false)
    optsProhibited rfl rfl).1 (Json.str "answer")

/-- Claim C4: when the allowed predicate is absent or returns true and the
option already has a defined value in the options bag, the question does not
fire (its when condition, the option being missing, is false) and the prompt
step leaves the options bag unchanged. -/
theorem prompt_skips_existing_option (cfg : Config) (opts : Bag) (v : Json)
    (hA : cfg.allowed = none ∨ ∃ f, cfg.allowed = some f ∧ f opts = true)
    (hv : opts cfg.name = some v) :
    isMissing cfg opts = false ∧
    ∀ u : Json, promptStep u cfg opts = opts := by
  have hAl : isAllowed cfg opts = true := by
    rcases hA with h | ⟨f, hf, hft⟩
    · simp [isAllowed, h]
    · simp [isAllowed, hf, hft]
  constructor
  · simp [isMissing, hv]
  · intro u
    exact promptStep_of_allowed_present u cfg opts v hAl hv

def cfgExisting : Config := Config.mk "opt" "input" none none none

def optsExisting : Bag :=
  fun k => if k = "opt" then some (Json.str "cli") else none

theorem prompt_skips_existing_option_witness :
    isMissing cfgExisting optsExisting = false ∧
    promptStep (Json.str "other") cfgExisting optsExisting = optsExisting :=
  ⟨(prompt_skips_existing_option cfgExisting optsExisting (Json.str "cli")
      (Or.inl rfl) rfl).1,
   (prompt_skips_existing_option cfgExisting optsExisting (Json.str "cli")
      (Or.inl rfl) rfl).2 (Json.str "other")⟩

def cfgEmptyMsg : Config :=
  Config.mk "foo" "input" (some fun _ => Json.str "") none none

def optsEmptyMsg : Bag :=
  fun k => if k = "foo" then some (Json.str "bar") else none

/-- Claim C2, counterexample: a validator that returns the empty string (a
string, but a falsy one) does not terminate the run with that exact string;
the code replaces the falsy result by the generic message first. -/
theorem resolve_empty_string_message_cex :
    resolve (Json.str "x") cfgEmptyMsg optsEmptyMsg =
      Except.error "Invalid foo option \x27bar\x27" ∧
    resolve (Json.str "x") cfgEmptyMsg optsEmptyMsg ≠ Except.error "" := by
  refine ⟨rfl, ?_⟩
  intro h
  have h1 : resolve (Json.str "x") cfgEmptyMsg optsEmptyMsg =
      Except.error "Invalid foo option \x27bar\x27" := rfl
  rw [h1] at h
  exact absurd (Except.error.inj h) (by decide)

/-- Claim C2 as amended: after the prompt step resolves the option value,
the configured validator is invoked with that final value; a non-empty (and
hence truthy) string result terminates the run with exactly that string, a
falsy result (which includes the empty string and false) terminates the run
with the generic invalid-option message naming the option and the value, and
a truthy non-string result lets the run continue with the resolved bag. -/
theorem resolve_validator_message_spec (cfg : Config)
    (v : Option Json → Json) (opts : Bag) (u : Json) (opts2 : Bag)
    (input : Option Json) (r : Json) (hv : cfg.validate = some v)
    (h2 : opts2 = promptStep u cfg opts) (hi : input = opts2 cfg.name)
    (hr : r = v input) :
    (∀ s : String, r = Json.str s → s ≠ "" →
      resolve u cfg opts = Except.error s) ∧
    (jsFalsy r = true →
      resolve u cfg opts = Except.error (invalidMessage cfg.name input)) ∧
    (jsFalsy r = false → (∀ s : String, r ≠ Json.str s) →
      resolve u cfg opts = Except.ok opts2) := by
  subst h2; subst hi; subst hr
  rw [resolve_eq_of_validate u cfg opts v hv]
  refine ⟨?_, ?_, ?_⟩
  · intro s hs hne
    rw [hs]
    have hfal : jsFalsy (Json.str s) = false := by simp [jsFalsy, hne]
    simp [hfal]
  · intro hfal
    simp [hfal]
  · intro hfal hns
    cases ht : v ((promptStep u cfg opts) cfg.name) with
    | str s => exact absurd ht (hns s)
    | null => rw [ht] at hfal; simp [jsFalsy] at hfal
    | bool b =>
      rw [ht] at hfal
      cases b with
      | false => simp [jsFalsy] at hfal
      | true => simp [ht, jsFalsy]
    | num n =>
      rw [ht] at hfal
      simp only [jsFalsy] at hfal
      simp [ht, jsFalsy, hfal]
    | arr items => simp [ht, jsFalsy]
    | obj fields => simp [ht, jsFalsy]

def cfgBadMsg : Config :=
  Config.mk "foo" "input" (some fun _ => Json.str "bad input") none none

theorem resolve_validator_message_spec_witness :
    resolve (Json.str "x") cfgBadMsg optsEmptyMsg =
      Except.error "bad input" :=
  (resolve_validator_message_spec cfgBadMsg (fun _ => Json.str "bad input")
    optsEmptyMsg (Json.str "x") _ _ _ rfl rfl rfl rfl).1 "bad input" rfl
    (by decide)

/-- Claim C10: when the allowed predicate returned false and the option was
therefore assigned its whenProhibited value without any prompt, a configured
validator is still invoked during resolution, with that whenProhibited
value: a non-empty string verdict aborts the run with that string, and a
falsy verdict aborts the run with the generic message naming the
whenProhibited value. -/
theorem resolve_validates_prohibited_value (cfg : Config) (f : Bag → Bool)
    (v : Option Json → Json) (opts : Bag) (u : Json)
    (hA : cfg.allowed = some f) (hf : f opts = false)
    (hv : cfg.validate = some v) :
    (∀ s : String, v cfg.whenProhibited = Json.str s → s ≠ "" →
      resolve u cfg opts = Except.error s) ∧
    (jsFalsy (v cfg.whenProhibited) = true →
      resolve u cfg opts = Except.error
        (invalidMessage cfg.name cfg.whenProhibited)) := by
  have hin : (promptStep u cfg opts) cfg.name = cfg.whenProhibited := by
    rw [promptStep_of_not_allowed u cfg opts f hA hf, bagSet_self]
  rw [resolve_eq_of_validate u cfg opts v hv, hin]
  refine ⟨?_, ?_⟩
  · intro s hs hne
    rw [hs]
    have hfal : jsFalsy (Json.str s) = false := by simp [jsFalsy, hne]
    simp [hfal]
  · intro hfal
    simp [hfal]

def cfgProhibitedBad : Config :=
  Config.mk "opt" "input" (some fun _ => Json.bool false)
    (some fun _ => false) (some (Json.str "fallback"))

theorem resolve_validates_prohibited_value_witness :
    resolve (Json.str "u") cfgProhibitedBad (fun _ => none) =
      Except.error "Invalid opt option \x27fallback\x27" :=
  (resolve_validates_prohibited_value cfgProhibitedBad (fun _ => false)
    (fun _ => Json.bool false) (fun _ => none) (Json.str "u")
    rfl rfl rfl).2 rfl

/-- Claim C1: the addScripts of the current generator (src/lib/generator.js)
combines a colliding script as existing-then-incoming by default and as
incoming-then-existing with prepend set, and adds a fresh script name
unchanged; but the older generator copy kept at the end of
src/unnamed/part_001 selects the two customizers the other way around,
contradicting both the claim and its own doc comment: with prepend left at
its default of false it produces incoming, separator, existing. The first
conjunct evaluates the legacy code at the failing input; the remaining
conjuncts evaluate the current code at the inputs of the claim. -/
theorem addScripts_legacy_inverted :
    (addScriptsLegacy (fileFS "package.json"
        (Json.obj [("scripts", Json.obj [("build", Json.str "lint")])]))
      [("build", Json.str "tsc")] false) "package.json" =
      some (JsonFile.mk
        (Json.obj [("scripts", Json.obj [("build", Json.str "tsc && lint")])])
        "\t") ∧
    (addScriptsLegacy (fileFS "package.json"
        (Json.obj [("scripts", Json.obj [("build", Json.str "lint")])]))
      [("build", Json.str "tsc")] true) "package.json" =
      some (JsonFile.mk
        (Json.obj [("scripts", Json.obj [("build", Json.str "lint && tsc")])])
        "\t") ∧
    (addScripts (fileFS "package.json"
        (Json.obj [("scripts", Json.obj [("build", Json.str "lint")])]))
      [("build", Json.str "tsc")] false) "package.json" =
      some (JsonFile.mk
        (Json.obj [("scripts", Json.obj [("build", Json.str "lint && tsc")])])
        "\t") ∧
    (addScripts (fileFS "package.json"
        (Json.obj [("scripts", Json.obj [("build", Json.str "lint")])]))
      [("build", Json.str "tsc")] true) "package.json" =
      some (JsonFile.mk
        (Json.obj [("scripts", Json.obj [("build", Json.str "tsc && lint")])])
        "\t") ∧
    (addScripts (fileFS "package.json"
        (Json.obj [("scripts", Json.obj [("lint", Json.str "eslint .")])]))
      [("build", Json.str "tsc")] false) "package.json" =
      some (JsonFile.mk
        (Json.obj [("scripts", Json.obj [("lint", Json.str "eslint ."),
          ("build", Json.str "tsc")])]) "\t") :=
  ⟨rfl, rfl, rfl, rfl, rfl⟩

/-- Claim C5: under the default concatArrays customizer, two arrays meeting
at the same path merge to existing-then-incoming concatenation; objects
merge key-by-key (a key present in the source maps to the merge of the two
values, a key absent from the source keeps the destination value); a scalar
incoming value overwrites whatever was there; and on the concrete examples,
merging an object whose key a holds the array 1,2 into a file whose key a
holds the array 3,4 yields 3,4,1,2 at a, while merging an object whose key a
holds the single-field object x to 1 into a file whose key a holds y to 2
yields at a an object mapping x to 1 and y to 2 (JavaScript keeps the
existing key y in first position and appends x). -/
theorem extendJson_default_merge_spec :
    (∀ o s : List Json,
      mergeValue concatArrays (some (Json.arr o)) (Json.arr s) =
        Json.arr (o ++ s)) ∧
    (∀ (o s : List (String × Json)) (k : String), (s.map Prod.fst).Nodup →
      lookupField (mergeFields concatArrays o s) k =
        match lookupField s k with
        | some v => some (mergeValue concatArrays (lookupField o k) v)
        | none => lookupField o k) ∧
    (∀ (objValue : Option Json) (srcValue : Json),
      jsonIsScalar srcValue = true →
      mergeValue concatArrays objValue srcValue = srcValue) ∧
    ((extendJson (fileFS "data.json"
        (Json.obj [("a", Json.arr [Json.num 3, Json.num 4])]))
      "data.json" (Json.obj [("a", Json.arr [Json.num 1, Json.num 2])])
      concatArrays) "data.json" =
      some (JsonFile.mk
        (Json.obj [("a", Json.arr [Json.num 3, Json.num 4, Json.num 1,
          Json.num 2])]) "\t")) ∧
    ((extendJson (fileFS "data.json"
        (Json.obj [("a", Json.obj [("y", Json.num 2)])]))
      "data.json" (Json.obj [("a", Json.obj [("x", Json.num 1)])])
      concatArrays) "data.json" =
      some (JsonFile.mk
        (Json.obj [("a", Json.obj [("y", Json.num 2), ("x", Json.num 1)])])
        "\t")) ∧
    lookupField [("y", Json.num 2), ("x", Json.num 1)] "x" =
      some (Json.num 1) ∧
    lookupField [("y", Json.num 2), ("x", Json.num 1)] "y" =
      some (Json.num 2) := by
  refine ⟨fun o s => rfl,
    fun o s k hnd => lookupField_mergeFields concatArrays s o k hnd, ?_,
    rfl, rfl, rfl, rfl⟩
  intro objValue srcValue h
  exact mergeValue_scalar concatArrays objValue srcValue
    (concatArrays_scalar objValue srcValue h) h

theorem extendJson_default_merge_spec_witness :
    lookupField
      (mergeFields concatArrays [("y", Json.num 2)] [("x", Json.num 1)])
      "x" = some (Json.num 1) ∧
    mergeValue concatArrays (some (Json.str "old")) (Json.str "new") =
      Json.str "new" :=
  ⟨extendJson_default_merge_spec.2.1 [("y", Json.num 2)] [("x", Json.num 1)]
      "x" (by decide),
   extendJson_default_merge_spec.2.2.1 (some (Json.str "old"))
      (Json.str "new") rfl⟩

/-- Claim C8: extendJson always writes the merged document back at the
destination path with tab indentation, and a missing destination file is
read as the empty object, so merging an object with distinct keys into a
missing file writes a file holding exactly that object. -/
theorem extendJson_missing_file_spec :
    (∀ (fs : FS) (p : String) (contents : Json) (c : Customizer),
      (extendJson fs p contents c) p =
        some (JsonFile.mk
          (mergeWith c (readJSON fs p (Json.obj [])) contents) "\t")) ∧
    (∀ (fs : FS) (p : String) (s : List (String × Json)),
      fs p = none → (s.map Prod.fst).Nodup →
      (extendJson fs p (Json.obj s) concatArrays) p =
        some (JsonFile.mk (Json.obj s) "\t")) := by
  constructor
  · intro fs p contents c
    simp [extendJson, writeJSON]
  · intro fs p s hmiss hnd
    have hm : mergeFields concatArrays [] s = s := by
      have h := mergeFields_disjoint s [] hnd (fun kv _ => rfl)
      simpa using h
    simp [extendJson, writeJSON, readJSON, hmiss, mergeWith, hm]

theorem extendJson_missing_file_spec_witness :
    (extendJson (fun _ => none) "package.json"
      (Json.obj [("name", Json.str "x")]) concatArrays) "package.json" =
      some (JsonFile.mk (Json.obj [("name", Json.str "x")]) "\t") :=
  extendJson_missing_file_spec.2 (fun _ => none) "package.json"
    [("name", Json.str "x")] rfl (by decide)

/-- Claim C6: when package.json holds an object with a scripts object,
sortScripts rewrites the scripts section so that the requested names that
are present come first, in requested order (requested names not present are
skipped), followed by the remaining scripts in their original relative
order, each script keeping its command string; the manifest is written back
tab-indented with every other field untouched. -/
theorem sortScripts_reorders_spec (fs : FS)
    (pkgFields sf : List (String × Json)) (names : List String)
    (ind : String)
    (hfs : fs "package.json" = some (JsonFile.mk (Json.obj pkgFields) ind))
    (hsf : lookupField pkgFields "scripts" = some (Json.obj sf))
    (hnames : names.Nodup) (hkeys : (sf.map Prod.fst).Nodup) :
    sortScripts fs names = some (writeJSON fs "package.json"
      (Json.obj (setField pkgFields "scripts" (Json.obj (
        (names.filterMap fun n => (lookupField sf n).map fun v => (n, v)) ++
        (sf.filter fun kv => decide (kv.1 ∉ names)))))) "\t") := by
  have hread : readJSON fs "package.json" (Json.obj []) =
      Json.obj pkgFields := by
    simp [readJSON, hfs]
  have hrun : sortScripts fs names = some (writeJSON fs "package.json"
      (Json.obj (setField pkgFields "scripts" (Json.obj (assignFields
        (sortLoop names [] sf).1 (sortLoop names [] sf).2)))) "\t") := by
    unfold sortScripts
    rw [hread]
    show sortScriptsBody fs pkgFields names = _
    unfold sortScriptsBody
    rw [hsf]
  rw [sortLoop_spec names [] sf hnames (fun n _ => rfl)] at hrun
  simp only [List.nil_append] at hrun
  have hpickKeys : ∀ kv ∈ (names.filterMap fun n =>
      (lookupField sf n).map fun v => (n, v)), kv.1 ∈ names := by
    intro kv hkv
    rw [List.mem_filterMap] at hkv
    obtain ⟨n, hn, hmap⟩ := hkv
    rw [Option.map_eq_some'] at hmap
    obtain ⟨v, _, hveq⟩ := hmap
    rw [← hveq]
    exact hn
  have hasg : assignFields
      (names.filterMap fun n => (lookupField sf n).map fun v => (n, v))
      (sf.filter fun kv => decide (kv.1 ∉ names)) =
      (names.filterMap fun n => (lookupField sf n).map fun v => (n, v)) ++
      (sf.filter fun kv => decide (kv.1 ∉ names)) := by
    refine assignFields_eq_append _ _ ?_ ?_
    · have hsub : ((sf.filter fun kv => decide (kv.1 ∉ names)).map
          Prod.fst).Sublist (sf.map Prod.fst) :=
        List.Sublist.map Prod.fst (List.filter_sublist sf)
      exact List.Nodup.sublist hsub hkeys
    · intro kv hkv
      rw [List.mem_filter] at hkv
      have hnin : kv.1 ∉ names := by simpa using hkv.2
      refine (lookupField_eq_none_iff _ kv.1).mpr fun entry hentry hh => ?_
      exact hnin (hh ▸ hpickKeys entry hentry)
  rw [hasg] at hrun
  exact hrun

def pkgSortFS : FS :=
  fileFS "package.json"
    (Json.obj [("scripts", Json.obj [("lint", Json.str "x"),
      ("build", Json.str "y"), ("test", Json.str "z")])])

theorem sortScripts_reorders_spec_witness :
    sortScripts pkgSortFS ["test", "build"] =
      some (writeJSON pkgSortFS "package.json"
        (Json.obj [("scripts", Json.obj [("test", Json.str "z"),
          ("build", Json.str "y"), ("lint", Json.str "x")])]) "\t") :=
  sortScripts_reorders_spec pkgSortFS
    [("scripts", Json.obj [("lint", Json.str "x"), ("build", Json.str "y"),
      ("test", Json.str "z")])]
    [("lint", Json.str "x"), ("build", Json.str "y"), ("test", Json.str "z")]
    ["test", "build"] "\t" rfl rfl (by decide) (by decide)

/-- Claim C9: when the manifest read from package.json (the empty object
when the file is missing) has no scripts property, sortScripts with a
non-empty name list throws instead of writing: the membership test applies
the in operator to an undefined scripts value. -/
theorem sortScripts_missing_scripts_throws (fs : FS)
    (pkgFields : List (String × Json)) (n : String) (rest : List String)
    (hpkg : readJSON fs "package.json" (Json.obj []) = Json.obj pkgFields)
    (hs : lookupField pkgFields "scripts" = none) :
    sortScripts fs (n :: rest) = none := by
  unfold sortScripts
  rw [hpkg]
  show sortScriptsBody fs pkgFields (n :: rest) = none
  unfold sortScriptsBody
  rw [hs]

theorem sortScripts_missing_scripts_throws_witness :
    sortScripts (fun _ => none) ["test"] = none :=
  sortScripts_missing_scripts_throws (fun _ => none) [] "test" [] rfl rfl

end YeomanHelpers
